import Mathlib

/-!
Verification of `contrib/memalloc.c`.

A shallow embedding of the allocator stress driver `contrib/memalloc.c`
and the properties of it that the specification states.

The program talks to its surroundings through `malloc`, `memset`, `printf`,
`sleep` and `free`.  Every such call is recorded, in program order, in a
trace.  The surroundings are a parameter (`Env`): the answers of `malloc`,
the contents of memory at start-up, and what happens to memory between the
two loops.

A read through the null pointer stops the program (`Exec.segv`): the calls
made up to that point stay in the trace and there is no exit status.

A call of `printf` puts a line into the buffer of standard output.  What
reaches standard output (`written`) is all of it when `main` returns, and
when the program is stopped it is what had left the buffer by then.
-/

namespace Memalloc

/-! ## Constants of the source -/

/-- A pointer is an address; the null pointer is address 0. -/
abbrev Ptr := Nat

/-- The null pointer. -/
def NULL : Ptr := 0

/-- The macro `#define ALPHABET "abcdefghijklmnopqrstuvwxyzABCDEFGHIJKLMNOPQRSTUVWXYZ"` -/
def ALPHABET : String := "abcdefghijklmnopqrstuvwxyzABCDEFGHIJKLMNOPQRSTUVWXYZ"

/-- The macro `#define MB_MAX 37` -/
def MB_MAX : Nat := 37

/-- The macro `#define MULTIPLIER 25` -/
def MULTIPLIER : Nat := 25

/-- The macro `#define MALLOC_MB (MULTIPLIER * 1024 * 1024)` -/
def MALLOC_MB : Nat := MULTIPLIER * 1024 * 1024

/-- The macro `#define MALLOC_DELAY 1`, in seconds. -/
def MALLOC_DELAY : Nat := 1

/-! ## The C library, as far as the program uses it -/

/-- The function `strlen` on a string literal without an embedded NUL: the number of its
characters. -/
def strlen (s : String) : Nat := s.length

/-- The expression `s[k]` for a string literal `s`: the code of its `k`-th
character; the terminating NUL (code 0) stands at `k = strlen s`. -/
def charAt (s : String) (k : Nat) : Nat := (s.toList.getD k (Char.ofNat 0)).toNat

/-- Memory: the byte (as an `unsigned char` value) stored at each address. -/
abbrev Mem := Nat → Nat

/-- The call `memset (p, c, n)`: the `n` bytes from `p` on receive `c` converted to
`unsigned char`. -/
def memset (mem : Mem) (p : Ptr) (c : Nat) (n : Nat) : Mem :=
  fun a => if p ≤ a ∧ a < p + n then c % 256 else mem a

/-- The read `p[off]`.  Through the null pointer it is a fault (`none`). -/
def load (mem : Mem) (p : Ptr) (off : Nat) : Option Nat :=
  if p = NULL then none else some (mem (p + off))

/-- A line handed to `printf`, by the format that produces it. -/
inductive Line where
  /-- Format `printf ("Allocated %d MB\n", n)` -/
  | allocated (n : Nat)
  /-- Format `printf ("buffer[%d][0] != %c\n", i, c)` -/
  | mismatch (i : Nat) (c : Nat)
  /-- Format `printf ("Freed %d MB\n", n)` -/
  | freed (n : Nat)
  deriving DecidableEq

/-- The text of a line, without the final newline. -/
def Line.render : Line → String
  | .allocated n => "Allocated " ++ toString n ++ " MB"
  | .mismatch i c => "buffer[" ++ toString i ++ "][0] != " ++ String.singleton (Char.ofNat c)
  | .freed n => "Freed " ++ toString n ++ " MB"

/-- A call the program makes to the C library. -/
inductive Event where
  /-- The call `malloc (size)` answered `ret`. -/
  | malloc (size : Nat) (ret : Ptr)
  /-- The call `memset (p, c, n)`. -/
  | memset (p : Ptr) (c : Nat) (n : Nat)
  /-- A call of `printf` that writes one line. -/
  | printf (line : Line)
  /-- The call `sleep (seconds)`. -/
  | sleep (seconds : Nat)
  /-- The call `free (p)`. -/
  | free (p : Ptr)
  deriving DecidableEq

/-- The surroundings of one run. -/
structure Env where
  /-- The answer of the `k`-th call of `malloc` (counted from 0); `NULL` when
  the request fails. -/
  malloc : Nat → Ptr
  /-- The contents of memory when the program starts. -/
  mem0 : Mem
  /-- What the outside world does to memory between the allocation loop and
  the verification loop; the identity when nothing is altered. -/
  tamper : Mem → Mem

/-! ## The program -/

/-- The variables of `main`, memory, and the trace of calls so far. -/
structure State where
  /-- The variable `int mb`. -/
  mb : Nat
  /-- The table `char* buffer[MB_MAX]`. -/
  buffer : List Ptr
  /-- The number of `malloc` calls made so far. -/
  nreq : Nat
  /-- Memory. -/
  mem : Mem
  /-- The library calls made so far, oldest first. -/
  trace : List Event

/-- How the execution of a loop with a given amount of fuel ends. -/
inductive Exec where
  /-- The loop condition was false: control is behind the loop. -/
  | done (s : State)
  /-- A read through the null pointer stopped the program. -/
  | segv (s : State)
  /-- The fuel ran out; `s` is the state at the loop head that was reached. -/
  | more (s : State)

/-- The state an execution ended in. -/
def Exec.state : Exec → State
  | .done s => s
  | .segv s => s
  | .more s => s

/-- The state at `mb = 0` of the first loop: `char* buffer[MB_MAX] = { NULL }`. -/
def init (env : Env) : State :=
  { mb := 0, buffer := List.replicate MB_MAX NULL, nreq := 0, mem := env.mem0, trace := [] }

/-- The first loop,
`for (mb = 0; mb < MB_MAX && (buffer[mb] = malloc (MALLOC_MB)) != NULL; ++mb)`,
from the loop head in state `s`. -/
def allocLoop (malloc : Nat → Ptr) : Nat → State → Exec
  | 0, s => .more s
  | fuel + 1, s =>
    if s.mb < MB_MAX then
      let s1 : State :=
        { s with
          buffer := s.buffer.set s.mb (malloc s.nreq)
          nreq := s.nreq + 1
          trace := s.trace ++ [Event.malloc MALLOC_MB (malloc s.nreq)] }
      if s1.buffer.getD s1.mb NULL ≠ NULL then
        let p := s1.buffer.getD s1.mb NULL
        let c := charAt ALPHABET (s1.mb % strlen ALPHABET)
        allocLoop malloc fuel
          { s1 with
            mb := s1.mb + 1
            mem := memset s1.mem p c MALLOC_MB
            trace := s1.trace ++
              [Event.memset p c MALLOC_MB,
               Event.printf (Line.allocated (MULTIPLIER * (s1.mb + 1))),
               Event.sleep MALLOC_DELAY] }
      else .done s1
    else .done s

/-- The second loop, `for (mb = 0; mb < MB_MAX; ++mb)`, from the loop head in
state `s`. -/
def verifyLoop : Nat → State → Exec
  | 0, s => .more s
  | fuel + 1, s =>
    if s.mb < MB_MAX then
      let p := s.buffer.getD s.mb NULL
      let c := charAt ALPHABET (s.mb % strlen ALPHABET)
      match load s.mem p 0 with
      | none => .segv s
      | some b =>
        let t1 := if b ≠ c then s.trace ++ [Event.printf (Line.mismatch s.mb c)] else s.trace
        verifyLoop fuel
          { s with
            mb := s.mb + 1
            trace := t1 ++
              [Event.free p,
               Event.printf (Line.freed (MULTIPLIER * (s.mb + 1))),
               Event.sleep MALLOC_DELAY] }
    else .done s

/-- What a run of the program leaves behind. -/
structure Result where
  /-- All library calls of the run, oldest first. -/
  trace : List Event
  /-- The exit status; `none` when a fault stopped the program. -/
  status : Option Int
  deriving DecidableEq

/-- The function `main`.  Each loop gets `MB_MAX + 1` units of fuel; `none`
would mean that this was not enough. -/
def main (env : Env) : Option Result :=
  match allocLoop env.malloc (MB_MAX + 1) (init env) with
  | .more _ => none
  | .segv s => some { trace := s.trace, status := none }
  | .done s =>
    match verifyLoop (MB_MAX + 1) { s with mb := 0, mem := env.tamper s.mem } with
    | .more _ => none
    | .segv s2 => some { trace := s2.trace, status := none }
    | .done s2 => some { trace := s2.trace, status := some 0 }

/-! ## Reading a trace -/

/-- The lines handed to `printf`, in program order.  The C library buffers
them; what of them reaches standard output is `written`. -/
def printfLines (t : List Event) : List Line :=
  t.filterMap fun e => match e with
    | .printf l => some l
    | _ => none

/-- The arguments of the `free` calls. -/
def frees (t : List Event) : List Ptr :=
  t.filterMap fun e => match e with
    | .free p => some p
    | _ => none

/-- The answers of the `malloc` calls. -/
def mallocs (t : List Event) : List Ptr :=
  t.filterMap fun e => match e with
    | .malloc _ p => some p
    | _ => none

/-- The arguments of the `memset` calls. -/
def memsets (t : List Event) : List (Ptr × Nat × Nat) :=
  t.filterMap fun e => match e with
    | .memset p c n => some (p, c, n)
    | _ => none

/-- The characters `printf` produces for a line: its text and a newline. -/
def Line.text (l : Line) : List Char := l.render.toList ++ [Char.ofNat 10]

/-- The characters `printf` produces for a sequence of lines. -/
def textOf : List Line → List Char
  | [] => []
  | l :: ls => l.text ++ textOf ls

/-- What standard output is connected to.  The program never calls `fflush`
or `setvbuf`, so the C library decides the buffering by it. -/
inductive Sink where
  /-- A terminal: line buffered, a line is written when its newline arrives. -/
  | terminal
  /-- A pipe or a file: fully buffered, a buffer of `bufsize` characters is
  written when it is full and more text arrives. -/
  | pipe (bufsize : Nat)

/-- The characters that reach standard output in a run.  Returning from `main`
writes whatever the buffer still holds; a fault does not. -/
def written (sink : Sink) (r : Result) : List Char :=
  match r.status with
  | some _ => textOf (printfLines r.trace)
  | none =>
    match sink with
    | .terminal => textOf (printfLines r.trace)
    | .pipe bufsize =>
      (textOf (printfLines r.trace)).take
        (bufsize * (((textOf (printfLines r.trace)).length - 1) / bufsize))

/-- Whether a line is a mismatch diagnostic. -/
def Line.isMismatch : Line → Bool
  | .mismatch _ _ => true
  | _ => false

/-- Whether a line is an `Allocated` progress line. -/
def Line.isAllocated : Line → Bool
  | .allocated _ => true
  | _ => false

/-- Whether a line is a `Freed` progress line. -/
def Line.isFreed : Line → Bool
  | .freed _ => true
  | _ => false

/-- An allocator whose first 10 requests succeed, with blocks laid out one
after the other, and whose later requests fail. -/
def tenBlocks : Nat → Ptr := fun k => if k < 10 then 4096 + k * MALLOC_MB else NULL

/-- An allocator that satisfies every request, with blocks laid out one after
the other. -/
def allBlocks : Nat → Ptr := fun k => 4096 + k * MALLOC_MB

/-! ## Closed forms used to state what the loops do -/

/-- The fill byte of block `i`: `ALPHABET[i % strlen(ALPHABET)]`. -/
def fillByte (i : Nat) : Nat := charAt ALPHABET (i % strlen ALPHABET)

/-- The table `buffer` when the first `n` requests have been granted. -/
def table (malloc : Nat → Ptr) (n : Nat) : List Ptr :=
  (List.range MB_MAX).map fun i => if i < n then malloc i else NULL

/-- Memory after the first `n` blocks have been filled. -/
def fills (malloc : Nat → Ptr) (mem0 : Mem) : Nat → Mem
  | 0 => mem0
  | n + 1 => memset (fills malloc mem0 n) (malloc n) (fillByte n) MALLOC_MB

/-- The calls of the `i`-th pass through the first loop when its request is
granted. -/
def allocEvents (malloc : Nat → Ptr) (i : Nat) : List Event :=
  [Event.malloc MALLOC_MB (malloc i),
   Event.memset (malloc i) (fillByte i) MALLOC_MB,
   Event.printf (Line.allocated (MULTIPLIER * (i + 1))),
   Event.sleep MALLOC_DELAY]

/-- The calls of the first `n` passes through the first loop. -/
def allocTrace (malloc : Nat → Ptr) : Nat → List Event
  | 0 => []
  | n + 1 => allocTrace malloc n ++ allocEvents malloc n

/-- The request that is refused, when there is one among the first `MB_MAX`. -/
def refusal (n : Nat) : List Event :=
  if n < MB_MAX then [Event.malloc MALLOC_MB NULL] else []

/-- The calls of the `i`-th pass through the second loop over memory `m`. -/
def verifyEvents (malloc : Nat → Ptr) (m : Mem) (i : Nat) : List Event :=
  (if m (malloc i) ≠ fillByte i then [Event.printf (Line.mismatch i (fillByte i))] else []) ++
  [Event.free (malloc i),
   Event.printf (Line.freed (MULTIPLIER * (i + 1))),
   Event.sleep MALLOC_DELAY]

/-- The calls of the first `n` passes through the second loop. -/
def verifyTrace (malloc : Nat → Ptr) (m : Mem) : Nat → List Event
  | 0 => []
  | n + 1 => verifyTrace malloc m n ++ verifyEvents malloc m n

/-- The state at the head of the first loop after `n` granted requests. -/
def headState (env : Env) (n : Nat) : State :=
  { mb := n
    buffer := table env.malloc n
    nreq := n
    mem := fills env.malloc env.mem0 n
    trace := allocTrace env.malloc n }

/-- The state behind the first loop after `n` granted requests. -/
def afterAlloc (env : Env) (n : Nat) : State :=
  { mb := n
    buffer := table env.malloc n
    nreq := if n < MB_MAX then n + 1 else n
    mem := fills env.malloc env.mem0 n
    trace := allocTrace env.malloc n ++ refusal n }

/-- The first `n` requests are granted and, if `n < MB_MAX`, the next one is
refused. -/
def Grants (malloc : Nat → Ptr) (n : Nat) : Prop :=
  n ≤ MB_MAX ∧ (∀ i, i < n → malloc i ≠ NULL) ∧ (n < MB_MAX → malloc n = NULL)

/-- The contract of `malloc` for the blocks handed out: no two of the first
`n` blocks share an address. -/
def DisjointBlocks (malloc : Nat → Ptr) (n : Nat) : Prop :=
  ∀ i j, i < n → j < n → i ≠ j →
    malloc i + MALLOC_MB ≤ malloc j ∨ malloc j + MALLOC_MB ≤ malloc i

/-- Memory when the second loop starts, after `n` granted requests. -/
def memAtVerify (env : Env) (n : Nat) : Mem :=
  env.tamper (fills env.malloc env.mem0 n)

/-- The state at the head of the second loop after `k` passes, when `n`
requests were granted. -/
def verifyState (env : Env) (n k : Nat) : State :=
  { mb := k
    buffer := table env.malloc n
    nreq := if n < MB_MAX then n + 1 else n
    mem := memAtVerify env n
    trace := allocTrace env.malloc n ++ refusal n ++ verifyTrace env.malloc (memAtVerify env n) k }

/-- The calls of a whole run in which `n` requests were granted. -/
def fullTrace (env : Env) (n : Nat) : List Event :=
  allocTrace env.malloc n ++ refusal n ++ verifyTrace env.malloc (memAtVerify env n) n

/-- The outside world leaves the first `n` blocks alone between the two
loops. -/
def Untouched (env : Env) (n : Nat) : Prop :=
  ∀ (m : Mem) (i k : Nat), i < n → k < MALLOC_MB →
    env.tamper m (env.malloc i + k) = m (env.malloc i + k)

/-- The memory `m` with the byte at address `a` replaced by `v`. -/
def poke (m : Mem) (a v : Nat) : Mem :=
  fun x => if x = a then v else m x

/-- No byte of the first `n` blocks differs, when the second loop starts, from
what it was right after its block was filled. -/
def Unaltered (env : Env) (n : Nat) : Prop :=
  ∀ j k, j < n → k < MALLOC_MB →
    env.tamper (allocLoop env.malloc (MB_MAX + 1) (init env)).state.mem (env.malloc j + k)
      = (allocLoop env.malloc (j + 1) (init env)).state.mem (env.malloc j + k)

/-- The table holds `n` non-null handles followed by null handles only. -/
def PrefixTable (b : List Ptr) (n : Nat) : Prop :=
  b.length = MB_MAX ∧ n ≤ MB_MAX ∧
    ∀ i, i < MB_MAX → (i < n → b.getD i NULL ≠ NULL) ∧ (n ≤ i → b.getD i NULL = NULL)

/-- A run in which ten requests are granted and nothing alters memory. -/
def tenEnv : Env := { malloc := tenBlocks, mem0 := fun _ => 0, tamper := id }

/-- A run in which all requests are granted and nothing alters memory. -/
def allEnv : Env := { malloc := allBlocks, mem0 := fun _ => 0, tamper := id }

/-- A run in which ten requests are granted and the first byte of block 3 is
overwritten with 0 between the two loops. -/
def spoiltEnv : Env :=
  { malloc := tenBlocks, mem0 := fun _ => 0, tamper := fun m => poke m (tenBlocks 3) 0 }

/-! ## The loops, pass by pass -/

theorem table_length (malloc : Nat → Ptr) (n : Nat) : (table malloc n).length = MB_MAX := by
  simp [table]

theorem table_getD (malloc : Nat → Ptr) (n i : Nat) (hi : i < MB_MAX) :
    (table malloc n).getD i NULL = if i < n then malloc i else NULL := by
  simp [table, List.getD_eq_getElem?_getD, List.getElem?_map, List.getElem?_range hi]

theorem table_zero (malloc : Nat → Ptr) : table malloc 0 = List.replicate MB_MAX NULL := by
  apply List.ext_getElem?
  intro i
  simp only [table, List.getElem?_map, List.getElem?_replicate, List.length_range]
  by_cases h : i < MB_MAX
  · simp [List.getElem?_range h, h]
  · have h2 : (List.range MB_MAX)[i]? = none := by simp [List.getElem?_eq_none]; omega
    simp [h2, h]

theorem table_set (malloc : Nat → Ptr) (n : Nat) :
    (table malloc n).set n (malloc n) = table malloc (n + 1) := by
  apply List.ext_getElem?
  intro i
  simp only [table, List.getElem?_set, List.getElem?_map, List.length_map, List.length_range]
  by_cases h : i < MB_MAX
  · by_cases hn : n = i
    · subst hn; simp [List.getElem?_range h, h]
    · have : (i < n + 1) = (i < n) := by
        apply propext; constructor <;> intro <;> omega
      simp [List.getElem?_range h, hn, this]
  · have h2 : (List.range MB_MAX)[i]? = none := by simp [List.getElem?_eq_none]; omega
    by_cases hn : n = i
    · subst hn; simp [h2, h]
    · simp [h2, hn]

theorem table_set_null (malloc : Nat → Ptr) (n : Nat) (h : malloc n = NULL) :
    (table malloc n).set n (malloc n) = table malloc n := by
  rw [table_set]
  apply List.ext_getElem?
  intro i
  simp only [table, List.getElem?_map]
  by_cases hi : i < MB_MAX
  · simp only [List.getElem?_range hi, Option.map_some']
    by_cases hn : i = n
    · subst hn; simp [h]
    · have : (i < n + 1) = (i < n) := by
        apply propext; constructor <;> intro <;> omega
      simp [this]
  · have h2 : (List.range MB_MAX)[i]? = none := by simp [List.getElem?_eq_none]; omega
    simp [h2]

theorem init_eq_headState (env : Env) : init env = headState env 0 := by
  simp [init, headState, table_zero, fills, allocTrace]

theorem allocLoop_pass (env : Env) (n fuel : Nat) (hn : n < MB_MAX)
    (hg : env.malloc n ≠ NULL) :
    allocLoop env.malloc (fuel + 1) (headState env n)
      = allocLoop env.malloc fuel (headState env (n + 1)) := by
  have hget : (table env.malloc (n + 1)).getD n NULL = env.malloc n := by
    rw [table_getD _ _ _ hn]; simp
  simp only [allocLoop, headState, hn, if_true, table_set, hget, hg, ne_eq, not_false_eq_true,
    fills, allocTrace, allocEvents, fillByte, List.append_assoc, List.singleton_append]

theorem allocLoop_refused (env : Env) (n fuel : Nat) (hn : n < MB_MAX)
    (hg : env.malloc n = NULL) :
    allocLoop env.malloc (fuel + 1) (headState env n) = .done (afterAlloc env n) := by
  have hset : (table env.malloc n).set n NULL = table env.malloc n := by
    have := table_set_null env.malloc n hg
    rwa [hg] at this
  have hget : (table env.malloc n).getD n NULL = NULL := by
    rw [table_getD _ _ _ hn]; simp
  simp only [allocLoop, headState, hn, if_true, hg, hset, hget, ne_eq, not_true_eq_false,
    if_false, afterAlloc, refusal]

theorem allocLoop_full (env : Env) (fuel : Nat) :
    allocLoop env.malloc (fuel + 1) (headState env MB_MAX) = .done (afterAlloc env MB_MAX) := by
  simp [allocLoop, headState, afterAlloc, refusal]

theorem allocLoop_steps (env : Env) (n : Nat) (hn : n ≤ MB_MAX)
    (hg : ∀ i, i < n → env.malloc i ≠ NULL) (fuel : Nat) :
    allocLoop env.malloc (n + fuel) (init env) = allocLoop env.malloc fuel (headState env n) := by
  induction n generalizing fuel with
  | zero => simp [init_eq_headState]
  | succ k ih =>
    have h1 := ih (by omega) (fun i hi => hg i (by omega)) (fuel + 1)
    rw [show k + 1 + fuel = k + (fuel + 1) by omega, h1]
    exact allocLoop_pass env k fuel (by omega) (hg k (by omega))

/-- The first loop, run with any fuel above the number of granted requests,
ends behind the loop in the state `afterAlloc`. -/
theorem allocLoop_done (env : Env) (n : Nat) (h : Grants env.malloc n) (fuel : Nat)
    (hf : n < fuel) :
    allocLoop env.malloc fuel (init env) = .done (afterAlloc env n) := by
  obtain ⟨hn, hg, hr⟩ := h
  obtain ⟨f, rfl⟩ : ∃ f, fuel = n + (f + 1) := ⟨fuel - n - 1, by omega⟩
  rw [allocLoop_steps env n hn hg]
  by_cases hlt : n < MB_MAX
  · exact allocLoop_refused env n f hlt (hr hlt)
  · have : n = MB_MAX := by omega
    subst this
    exact allocLoop_full env f

/-- With fuel for at most `n` passes, the first loop is still running, at the
head state after that many passes. -/
theorem allocLoop_more (env : Env) (n : Nat) (h : Grants env.malloc n) (fuel : Nat)
    (hf : fuel ≤ n) :
    allocLoop env.malloc fuel (init env) = .more (headState env fuel) := by
  obtain ⟨hn, hg, _⟩ := h
  have := allocLoop_steps env fuel (by omega) (fun i hi => hg i (by omega)) 0
  simpa [allocLoop] using this

/-- Every allocator grants some number `n ≤ MB_MAX` of requests in a row and,
if `n < MB_MAX`, refuses the next one. -/
theorem exists_grants (malloc : Nat → Ptr) : ∃ n, Grants malloc n := by
  by_cases h : ∃ i, i < MB_MAX ∧ malloc i = NULL
  · refine ⟨Nat.find h, ?_, ?_, ?_⟩
    · exact le_of_lt (Nat.find_spec h).1
    · intro i hi hnull
      exact Nat.find_min h hi ⟨lt_trans hi (Nat.find_spec h).1, hnull⟩
    · intro _
      exact (Nat.find_spec h).2
  · refine ⟨MB_MAX, le_refl _, ?_, ?_⟩
    · intro i hi hnull
      exact h ⟨i, hi, hnull⟩
    · intro hlt
      exact absurd hlt (lt_irrefl _)

theorem grants_unique (malloc : Nat → Ptr) (n m : Nat) (hn : Grants malloc n)
    (hm : Grants malloc m) : n = m := by
  obtain ⟨hn1, hn2, hn3⟩ := hn
  obtain ⟨hm1, hm2, hm3⟩ := hm
  rcases Nat.lt_trichotomy n m with h | h | h
  · exact absurd (hn3 (by omega)) (hm2 n h)
  · exact h
  · exact absurd (hm3 (by omega)) (hn2 m h)

theorem verifyLoop_pass (env : Env) (n k fuel : Nat) (hn : n ≤ MB_MAX) (hk : k < n)
    (hg : env.malloc k ≠ NULL) :
    verifyLoop (fuel + 1) (verifyState env n k) = verifyLoop fuel (verifyState env n (k + 1)) := by
  have hk2 : k < MB_MAX := by omega
  have hget : (table env.malloc n).getD k NULL = env.malloc k := by
    rw [table_getD _ _ _ hk2]; simp [hk]
  simp only [verifyLoop, verifyState, hk2, if_true, hget, load, hg, if_false, Nat.add_zero]
  congr 2
  simp only [verifyTrace, verifyEvents, fillByte]
  split <;> simp

theorem verifyLoop_null (env : Env) (n fuel : Nat) (hn : n < MB_MAX) :
    verifyLoop (fuel + 1) (verifyState env n n) = .segv (verifyState env n n) := by
  have hget : (table env.malloc n).getD n NULL = NULL := by
    rw [table_getD _ _ _ hn]; simp
  simp only [verifyLoop, verifyState, hn, if_true, hget, load]

theorem verifyLoop_full (env : Env) (fuel : Nat) :
    verifyLoop (fuel + 1) (verifyState env MB_MAX MB_MAX)
      = .done (verifyState env MB_MAX MB_MAX) := by
  simp [verifyLoop, verifyState]

theorem verifyLoop_steps (env : Env) (n : Nat) (hn : n ≤ MB_MAX)
    (hg : ∀ i, i < n → env.malloc i ≠ NULL) (k : Nat) (hk : k ≤ n) (fuel : Nat) :
    verifyLoop (k + fuel) (verifyState env n 0) = verifyLoop fuel (verifyState env n k) := by
  induction k generalizing fuel with
  | zero => simp
  | succ j ih =>
    have h1 := ih (by omega) (fuel + 1)
    rw [show j + 1 + fuel = j + (fuel + 1) by omega, h1]
    exact verifyLoop_pass env n j fuel hn (by omega) (hg j (by omega))

theorem verifyStart_eq (env : Env) (n : Nat) :
    ({ afterAlloc env n with mb := 0, mem := env.tamper (afterAlloc env n).mem } : State)
      = verifyState env n 0 := by
  simp [afterAlloc, verifyState, memAtVerify, verifyTrace]

/-- The whole run, in closed form: when `n` requests are granted the calls
made are `fullTrace env n`, and the program returns 0 if `n = MB_MAX` and is
stopped by the read through `buffer[n]`, which is null, if `n < MB_MAX`. -/
theorem main_eq (env : Env) (n : Nat) (h : Grants env.malloc n) :
    main env = some { trace := fullTrace env n,
                      status := if n = MB_MAX then some 0 else none } := by
  have hn := h.1
  have hg := h.2.1
  have ha := allocLoop_done env n h (MB_MAX + 1) (by omega)
  have hv := verifyLoop_steps env n hn hg n (le_refl _) (MB_MAX - n + 1)
  rw [show n + (MB_MAX - n + 1) = MB_MAX + 1 by omega] at hv
  simp only [main, ha, verifyStart_eq, hv]
  by_cases hlt : n < MB_MAX
  · rw [verifyLoop_null env n _ hlt]
    have : n ≠ MB_MAX := by omega
    simp [this, verifyState, fullTrace]
  · have : n = MB_MAX := by omega
    subst this
    rw [verifyLoop_full]
    simp [verifyState, fullTrace]

/-! ## What a closed-form trace contains -/

theorem printfLines_append (a b : List Event) : printfLines (a ++ b) = printfLines a ++ printfLines b := by
  simp [printfLines]

theorem frees_append (a b : List Event) : frees (a ++ b) = frees a ++ frees b := by
  simp [frees]

theorem mallocs_append (a b : List Event) : mallocs (a ++ b) = mallocs a ++ mallocs b := by
  simp [mallocs]

theorem printfLines_allocTrace (malloc : Nat → Ptr) (n : Nat) :
    printfLines (allocTrace malloc n)
      = (List.range n).map fun i => Line.allocated (MULTIPLIER * (i + 1)) := by
  induction n with
  | zero => rfl
  | succ k ih =>
    rw [allocTrace, printfLines_append, ih, List.range_succ, List.map_append]
    simp [allocEvents, printfLines]

theorem frees_allocTrace (malloc : Nat → Ptr) (n : Nat) : frees (allocTrace malloc n) = [] := by
  induction n with
  | zero => rfl
  | succ k ih =>
    rw [allocTrace, frees_append, ih]
    simp [allocEvents, frees]

theorem mallocs_allocTrace (malloc : Nat → Ptr) (n : Nat) :
    mallocs (allocTrace malloc n) = (List.range n).map malloc := by
  induction n with
  | zero => rfl
  | succ k ih =>
    rw [allocTrace, mallocs_append, ih, List.range_succ, List.map_append]
    simp [allocEvents, mallocs]

theorem memsets_append (a b : List Event) : memsets (a ++ b) = memsets a ++ memsets b := by
  simp [memsets]

theorem memsets_allocTrace (malloc : Nat → Ptr) (n : Nat) :
    memsets (allocTrace malloc n)
      = (List.range n).map fun i => (malloc i, fillByte i, MALLOC_MB) := by
  induction n with
  | zero => rfl
  | succ k ih =>
    rw [allocTrace, memsets_append, ih, List.range_succ, List.map_append]
    simp [allocEvents, memsets]

theorem memsets_refusal (n : Nat) : memsets (refusal n) = [] := by
  unfold refusal; split <;> simp [memsets]

theorem memsets_verifyTrace (malloc : Nat → Ptr) (m : Mem) (n : Nat) :
    memsets (verifyTrace malloc m n) = [] := by
  induction n with
  | zero => rfl
  | succ k ih =>
    rw [verifyTrace, memsets_append, ih]
    simp only [verifyEvents, memsets_append]
    split <;> simp [memsets]

theorem printfLines_refusal (n : Nat) : printfLines (refusal n) = [] := by
  unfold refusal; split <;> simp [printfLines]

theorem frees_refusal (n : Nat) : frees (refusal n) = [] := by
  unfold refusal; split <;> simp [frees]

theorem mallocs_refusal (n : Nat) :
    mallocs (refusal n) = if n < MB_MAX then [NULL] else [] := by
  unfold refusal; split <;> simp [mallocs]

theorem frees_verifyTrace (malloc : Nat → Ptr) (m : Mem) (n : Nat) :
    frees (verifyTrace malloc m n) = (List.range n).map malloc := by
  induction n with
  | zero => rfl
  | succ k ih =>
    rw [verifyTrace, frees_append, ih, List.range_succ, List.map_append]
    simp only [verifyEvents, frees_append]
    split <;> simp [frees]

theorem mallocs_verifyTrace (malloc : Nat → Ptr) (m : Mem) (n : Nat) :
    mallocs (verifyTrace malloc m n) = [] := by
  induction n with
  | zero => rfl
  | succ k ih =>
    rw [verifyTrace, mallocs_append, ih]
    simp only [verifyEvents, mallocs_append]
    split <;> simp [mallocs]

/-- The `Allocated` and `Freed` lines of the second loop: one `Freed` line a
pass, whatever memory holds. -/
theorem progress_verifyTrace (malloc : Nat → Ptr) (m : Mem) (n : Nat) :
    (printfLines (verifyTrace malloc m n)).filter (fun l => !l.isMismatch)
      = (List.range n).map fun i => Line.freed (MULTIPLIER * (i + 1)) := by
  induction n with
  | zero => rfl
  | succ k ih =>
    rw [verifyTrace, printfLines_append, List.filter_append, ih, List.range_succ, List.map_append]
    simp only [verifyEvents, printfLines_append]
    split <;> simp [printfLines, Line.isMismatch]

theorem allocated_allocTrace (malloc : Nat → Ptr) (n : Nat) :
    (printfLines (allocTrace malloc n)).filter (fun l => l.isAllocated)
      = (List.range n).map fun i => Line.allocated (MULTIPLIER * (i + 1)) := by
  rw [printfLines_allocTrace, List.filter_eq_self]
  intro l hl
  obtain ⟨i, _, rfl⟩ := List.mem_map.1 hl
  rfl

theorem freed_allocTrace (malloc : Nat → Ptr) (n : Nat) :
    (printfLines (allocTrace malloc n)).filter (fun l => l.isFreed) = [] := by
  rw [printfLines_allocTrace, List.filter_eq_nil_iff]
  intro l hl
  obtain ⟨i, _, rfl⟩ := List.mem_map.1 hl
  simp [Line.isFreed]

theorem allocated_verifyTrace (malloc : Nat → Ptr) (m : Mem) (n : Nat) :
    (printfLines (verifyTrace malloc m n)).filter (fun l => l.isAllocated) = [] := by
  induction n with
  | zero => rfl
  | succ k ih =>
    rw [verifyTrace, printfLines_append, List.filter_append, ih]
    simp only [verifyEvents, printfLines_append]
    split <;> simp [printfLines, Line.isAllocated]

theorem freed_verifyTrace (malloc : Nat → Ptr) (m : Mem) (n : Nat) :
    (printfLines (verifyTrace malloc m n)).filter (fun l => l.isFreed)
      = (List.range n).map fun i => Line.freed (MULTIPLIER * (i + 1)) := by
  induction n with
  | zero => rfl
  | succ k ih =>
    rw [verifyTrace, printfLines_append, List.filter_append, ih, List.range_succ, List.map_append]
    simp only [verifyEvents, printfLines_append]
    split <;> simp [printfLines, Line.isFreed]

/-- The second loop prints a mismatch line for block `i` exactly when the
first byte of block `i` is not its fill byte. -/
theorem mismatch_mem_verifyTrace (malloc : Nat → Ptr) (m : Mem) (n i c : Nat) :
    Line.mismatch i c ∈ printfLines (verifyTrace malloc m n)
      ↔ i < n ∧ c = fillByte i ∧ m (malloc i) ≠ fillByte i := by
  induction n with
  | zero => simp [verifyTrace, printfLines]
  | succ k ih =>
    rw [verifyTrace, printfLines_append, List.mem_append, ih]
    simp only [verifyEvents, printfLines_append]
    by_cases hm : m (malloc k) ≠ fillByte k
    · rw [if_pos hm]
      simp only [printfLines, List.filterMap_cons, List.filterMap_nil, List.mem_append,
        List.mem_singleton, List.mem_cons, Line.mismatch.injEq, List.not_mem_nil, or_false,
        reduceCtorEq]
      constructor
      · rintro (⟨h1, h2, h3⟩ | ⟨rfl, rfl⟩)
        · exact ⟨by omega, h2, h3⟩
        · exact ⟨by omega, rfl, hm⟩
      · rintro ⟨h1, h2, h3⟩
        by_cases hik : i = k
        · subst hik; exact Or.inr ⟨rfl, h2⟩
        · exact Or.inl ⟨by omega, h2, h3⟩
    · rw [if_neg hm]
      simp only [printfLines, List.filterMap_cons, List.filterMap_nil, List.mem_append,
        List.mem_singleton, List.mem_cons, List.not_mem_nil, or_false, reduceCtorEq,
        List.append_nil, List.nil_append]
      constructor
      · rintro ⟨h1, h2, h3⟩
        exact ⟨by omega, h2, h3⟩
      · rintro ⟨h1, h2, h3⟩
        by_cases hik : i = k
        · subst hik; exact absurd h3 hm
        · exact ⟨by omega, h2, h3⟩

/-- The second loop reads memory only at the first byte of each block. -/
theorem verifyTrace_congr (malloc : Nat → Ptr) (m1 m2 : Mem) (n : Nat)
    (h : ∀ i, i < n → m1 (malloc i) = m2 (malloc i)) :
    verifyTrace malloc m1 n = verifyTrace malloc m2 n := by
  induction n with
  | zero => rfl
  | succ k ih =>
    rw [verifyTrace, verifyTrace, ih (fun i hi => h i (by omega))]
    simp only [verifyEvents, h k (by omega)]

/-! ## Memory after the fills -/

theorem charAt_lt (k : Nat) (hk : k < 52) : charAt ALPHABET k < 256 ∧ charAt ALPHABET k ≠ 0 := by
  revert k
  decide

theorem strlen_ALPHABET : strlen ALPHABET = 52 := by decide

theorem fillByte_lt (i : Nat) : fillByte i < 256 := by
  unfold fillByte
  rw [strlen_ALPHABET]
  exact (charAt_lt _ (Nat.mod_lt _ (by decide))).1

/-- Right after block `i` is filled, each of its bytes is the fill byte. -/
theorem fills_succ_block (malloc : Nat → Ptr) (mem0 : Mem) (i k : Nat) (hk : k < MALLOC_MB) :
    fills malloc mem0 (i + 1) (malloc i + k) = fillByte i := by
  have hin : malloc i ≤ malloc i + k ∧ malloc i + k < malloc i + MALLOC_MB := by
    unfold Ptr at *
    omega
  simp only [fills, memset]
  rw [if_pos hin]
  exact Nat.mod_eq_of_lt (fillByte_lt i)

/-- Later fills leave the bytes of an earlier block alone when blocks do not
overlap. -/
theorem fills_block (malloc : Nat → Ptr) (mem0 : Mem) (n i k : Nat)
    (hd : DisjointBlocks malloc n) (hi : i < n) (hk : k < MALLOC_MB) :
    fills malloc mem0 n (malloc i + k) = fillByte i := by
  have key : ∀ m, i < m → m ≤ n → fills malloc mem0 m (malloc i + k) = fillByte i := by
    intro m
    induction m with
    | zero => intro h; omega
    | succ j ih =>
      intro h1 h2
      by_cases hij : i = j
      · subst hij; exact fills_succ_block malloc mem0 i k hk
      · have hprev := ih (by omega) (by omega)
        simp only [fills, memset]
        rw [if_neg, hprev]
        rintro ⟨h3, h4⟩
        have hjn : j < n := by omega
        rcases hd i j hi hjn hij with h | h <;> unfold Ptr at * <;> omega
  exact key n hi (le_refl _)

theorem memAtVerify_block (env : Env) (n i k : Nat) (hd : DisjointBlocks env.malloc n)
    (hu : Untouched env n) (hi : i < n) (hk : k < MALLOC_MB) :
    memAtVerify env n (env.malloc i + k) = fillByte i := by
  unfold memAtVerify
  rw [hu _ i k hi hk]
  exact fills_block env.malloc env.mem0 n i k hd hi hk

theorem MALLOC_MB_pos : 0 < MALLOC_MB := by decide

/-- When the first byte of every block is its fill byte, the second loop
prints no mismatch line. -/
theorem verifyTrace_clean (malloc : Nat → Ptr) (m : Mem) (n : Nat)
    (h : ∀ j, j < n → m (malloc j) = fillByte j) :
    printfLines (verifyTrace malloc m n)
      = (List.range n).map fun i => Line.freed (MULTIPLIER * (i + 1)) := by
  induction n with
  | zero => rfl
  | succ j ih =>
    rw [verifyTrace, printfLines_append, ih (fun i hi => h i (by omega)), List.range_succ,
      List.map_append]
    simp [verifyEvents, h j (by omega), printfLines]

/-- Under `Grants`, `Unaltered` says that every byte of every block is the
fill byte of its block when the second loop starts. -/
theorem unaltered_iff (env : Env) (n : Nat) (h : Grants env.malloc n) :
    Unaltered env n ↔
      ∀ j k, j < n → k < MALLOC_MB → memAtVerify env n (env.malloc j + k) = fillByte j := by
  have ha := allocLoop_done env n h (MB_MAX + 1) (by have := h.1; omega)
  have hm : ∀ j, j < n → allocLoop env.malloc (j + 1) (init env) = .more (headState env (j + 1)) :=
    fun j hj => allocLoop_more env n h (j + 1) (by omega)
  unfold Unaltered
  constructor
  · intro hu j k hj hk
    have := hu j k hj hk
    rw [ha, hm j hj] at this
    simp only [Exec.state, afterAlloc, headState] at this
    rw [fills_succ_block _ _ _ _ hk] at this
    exact this
  · intro hu j k hj hk
    rw [ha, hm j hj]
    simp only [Exec.state, afterAlloc, headState]
    rw [fills_succ_block _ _ _ _ hk]
    exact hu j k hj hk

/-- Blocks that do not overlap and that the outside world leaves alone are
unaltered. -/
theorem unaltered_of_disjoint (env : Env) (n : Nat) (h : Grants env.malloc n)
    (hd : DisjointBlocks env.malloc n) (hu : Untouched env n) : Unaltered env n :=
  (unaltered_iff env n h).2 fun j k hj hk => memAtVerify_block env n j k hd hu hj hk

theorem first_bytes_of_unaltered (env : Env) (n : Nat) (h : Grants env.malloc n)
    (hu : Unaltered env n) (j : Nat) (hj : j < n) :
    memAtVerify env n (env.malloc j) = fillByte j := by
  have := (unaltered_iff env n h).1 hu j 0 hj MALLOC_MB_pos
  rwa [Nat.add_zero] at this

/-- When no block is altered, no line of the run is a mismatch line. -/
theorem clean_of_unaltered (env : Env) (n : Nat) (h : Grants env.malloc n)
    (hu : Unaltered env n) (l : Line) (hl : l ∈ printfLines (fullTrace env n)) :
    l.isMismatch = false := by
  unfold fullTrace at hl
  rw [printfLines_append, printfLines_append, printfLines_refusal, List.append_nil, printfLines_allocTrace,
    verifyTrace_clean _ _ _ (first_bytes_of_unaltered env n h hu), List.mem_append] at hl
  rcases hl with hmem | hmem
  · obtain ⟨j, _, rfl⟩ := List.mem_map.1 hmem
    rfl
  · obtain ⟨j, _, rfl⟩ := List.mem_map.1 hmem
    rfl

/-- How a run ends: with exit status 0 when all `MB_MAX` requests are granted,
and without exit status, stopped by the read through the null `buffer[n]`,
when only `n < MB_MAX` are. -/
theorem main_status (env : Env) (n : Nat) (h : Grants env.malloc n) :
    (main env).map (fun r => r.status) = some (if n = MB_MAX then some 0 else none) := by
  rw [main_eq env n h]
  rfl

/-- The program always ends: the fuel `main` hands to its loops is enough. -/
theorem main_total (env : Env) : ∃ r, main env = some r := by
  obtain ⟨n, h⟩ := exists_grants env.malloc
  exact ⟨_, main_eq env n h⟩

theorem grants_all (malloc : Nat → Ptr) (h : ∀ i, i < MB_MAX → malloc i ≠ NULL) :
    Grants malloc MB_MAX :=
  ⟨le_refl _, h, fun hlt => absurd hlt (lt_irrefl _)⟩

theorem grants_ten : Grants tenBlocks 10 := by
  refine ⟨by decide, ?_, ?_⟩
  · intro i hi
    simp [tenBlocks, hi, NULL]
  · intro _
    simp [tenBlocks]

theorem disjoint_ten : DisjointBlocks tenBlocks 10 := by
  intro i j hi hj hij
  simp only [tenBlocks, hi, hj, if_true]
  have : 0 < MALLOC_MB := MALLOC_MB_pos
  rcases Nat.lt_or_gt_of_ne hij with h | h
  · left
    have : (i + 1) * MALLOC_MB ≤ j * MALLOC_MB := Nat.mul_le_mul_right _ h
    unfold Ptr at *
    nlinarith
  · right
    have : (j + 1) * MALLOC_MB ≤ i * MALLOC_MB := Nat.mul_le_mul_right _ h
    unfold Ptr at *
    nlinarith

theorem disjoint_all (n : Nat) : DisjointBlocks allBlocks n := by
  intro i j _ _ hij
  simp only [allBlocks]
  rcases Nat.lt_or_gt_of_ne hij with h | h
  · left
    have : (i + 1) * MALLOC_MB ≤ j * MALLOC_MB := Nat.mul_le_mul_right _ h
    unfold Ptr at *
    nlinarith
  · right
    have : (j + 1) * MALLOC_MB ≤ i * MALLOC_MB := Nat.mul_le_mul_right _ h
    unfold Ptr at *
    nlinarith

theorem grants_allBlocks : Grants allBlocks MB_MAX :=
  grants_all allBlocks fun i _ => by simp [allBlocks, NULL]

theorem unaltered_tenEnv : Unaltered tenEnv 10 :=
  unaltered_of_disjoint tenEnv 10 grants_ten disjoint_ten (fun _ _ _ _ _ => rfl)

theorem unaltered_allEnv : Unaltered allEnv MB_MAX :=
  unaltered_of_disjoint allEnv MB_MAX grants_allBlocks (disjoint_all _) (fun _ _ _ _ _ => rfl)

/-! ## The claims of the specification -/

/-- C6: for every allocator behaviour the allocation phase ends, and it ends
with `N = mb` granted blocks where `0 ≤ N ≤ 37`, requests `0 .. N-1` were
granted and, if `N < 37`, request `N` was refused, so that `N` is the smaller
of 37 and the index of the first refused request.  The `malloc` calls made are
the requests `0, 1, ..., N-1` in this order, one call each, followed by the
refused request alone when `N < 37`: nothing is retried and nothing is
requested after a refusal. -/
theorem C6_allocation_stops_at_first_refusal (env : Env) :
    ∃ s, allocLoop env.malloc (MB_MAX + 1) (init env) = .done s ∧
      s.mb ≤ 37 ∧
      (∀ i, i < s.mb → env.malloc i ≠ NULL) ∧
      (s.mb < 37 → env.malloc s.mb = NULL) ∧
      (∀ f, env.malloc f = NULL → (∀ i, i < f → env.malloc i ≠ NULL) → s.mb = min 37 f) ∧
      ((∀ i, env.malloc i ≠ NULL) → s.mb = 37) ∧
      mallocs s.trace = (List.range s.mb).map env.malloc ++ (if s.mb < 37 then [NULL] else []) ∧
      ((mallocs s.trace).filter fun p => decide (p ≠ NULL)).length = s.mb ∧
      s.nreq = (mallocs s.trace).length := by
  obtain ⟨n, h⟩ := exists_grants env.malloc
  have hn : n ≤ 37 := h.1
  refine ⟨_, allocLoop_done env n h (MB_MAX + 1) (by have := h.1; omega), hn, h.2.1, h.2.2,
    ?_, ?_, ?_, ?_, ?_⟩
  · intro f hf hbefore
    show n = min 37 f
    by_cases hlt : f < 37
    · have : Grants env.malloc f := ⟨le_of_lt hlt, hbefore, fun _ => hf⟩
      rw [grants_unique _ _ _ h this]
      omega
    · have : Grants env.malloc 37 :=
        ⟨le_refl _, fun i hi => hbefore i (by omega), fun hlt => absurd hlt (lt_irrefl _)⟩
      rw [grants_unique _ _ _ h this]
      omega
  · intro hall
    exact grants_unique _ _ _ h (grants_all _ fun i _ => hall i)
  · show mallocs (allocTrace env.malloc n ++ refusal n) = _
    rw [mallocs_append, mallocs_allocTrace, mallocs_refusal]
    rfl
  · show ((mallocs (allocTrace env.malloc n ++ refusal n)).filter _).length = n
    rw [mallocs_append, mallocs_allocTrace, mallocs_refusal, List.filter_append]
    have h1 : ((List.range n).map env.malloc).filter (fun p => decide (p ≠ NULL))
        = (List.range n).map env.malloc := by
      rw [List.filter_eq_self]
      intro p hp
      obtain ⟨i, hi, rfl⟩ := List.mem_map.1 hp
      simpa using h.2.1 i (List.mem_range.1 hi)
    rw [h1]
    split <;> simp
  · show (if n < MB_MAX then n + 1 else n) = (mallocs (allocTrace env.malloc n ++ refusal n)).length
    rw [mallocs_append, mallocs_allocTrace, mallocs_refusal]
    split <;> simp

/-- C8: at every point of the allocation phase (the state reached with any
amount of fuel, which is the loop head after that many passes or the state
behind the loop; the table is written only in the loop condition, so these
are all the tables there ever are) the table has 37 entries, the first `mb`
of them non-null and all others null; behind the loop `mb` is the number `N`
of granted requests, `buffer[i]` is the `i`-th granted handle for `i < N` and
null for `N ≤ i < 37`. -/
theorem C8_table_prefix_shape (env : Env) :
    (∀ fuel, PrefixTable (allocLoop env.malloc fuel (init env)).state.buffer
        (allocLoop env.malloc fuel (init env)).state.mb) ∧
    ∃ s, allocLoop env.malloc (MB_MAX + 1) (init env) = .done s ∧
      Grants env.malloc s.mb ∧
      s.buffer.length = 37 ∧
      (∀ i, i < s.mb → s.buffer.getD i NULL = env.malloc i ∧ s.buffer.getD i NULL ≠ NULL) ∧
      (∀ i, s.mb ≤ i → i < 37 → s.buffer.getD i NULL = NULL) := by
  obtain ⟨n, h⟩ := exists_grants env.malloc
  have hn : n ≤ MB_MAX := h.1
  have hshape : ∀ k, k ≤ n → PrefixTable (table env.malloc k) k := by
    intro k hk
    refine ⟨table_length _ _, by omega, ?_⟩
    intro i hi
    rw [table_getD _ _ _ hi]
    constructor
    · intro hik
      rw [if_pos hik]
      exact h.2.1 i (by omega)
    · intro hki
      rw [if_neg (by omega)]
  constructor
  · intro fuel
    by_cases hf : fuel ≤ n
    · rw [allocLoop_more env n h fuel hf]
      exact hshape fuel hf
    · rw [allocLoop_done env n h fuel (by omega)]
      exact hshape n (le_refl _)
  · refine ⟨_, allocLoop_done env n h (MB_MAX + 1) (by omega), h, table_length _ _, ?_, ?_⟩
    · intro i hi
      have hi2 : i < n := hi
      have hval : (table env.malloc n).getD i NULL = env.malloc i := by
        rw [table_getD _ _ _ (by omega), if_pos hi2]
      exact ⟨hval, hval.symm ▸ h.2.1 i hi2⟩
    · intro i hi hi37
      have hi2 : n ≤ i := hi
      show (table env.malloc n).getD i NULL = NULL
      rw [table_getD _ _ _ hi37, if_neg (by omega)]

/-- C9: the block count 37 is below the alphabet length 52, so for every index
`i < 37` the program can use, `i mod 52 = i`, the lookup `ALPHABET[i mod 52]`
stays below position 52 and does not yield the terminating NUL, and two
distinct indices below 37 have distinct fill bytes. -/
theorem C9_fill_bytes_in_bounds_and_distinct (i : Nat) (hi : i < MB_MAX) :
    MB_MAX < strlen ALPHABET ∧
    i % strlen ALPHABET = i ∧
    i % strlen ALPHABET < strlen ALPHABET ∧
    charAt ALPHABET (i % strlen ALPHABET) ≠ 0 ∧
    ∀ j, j < MB_MAX → i ≠ j →
      charAt ALPHABET (i % strlen ALPHABET) ≠ charAt ALPHABET (j % strlen ALPHABET) := by
  revert i
  decide

/-- C9 at the last usable index, 36. -/
theorem C9_witness :
    MB_MAX < strlen ALPHABET ∧
    36 % strlen ALPHABET = 36 ∧
    36 % strlen ALPHABET < strlen ALPHABET ∧
    charAt ALPHABET (36 % strlen ALPHABET) ≠ 0 ∧
    ∀ j, j < MB_MAX → 36 ≠ j →
      charAt ALPHABET (36 % strlen ALPHABET) ≠ charAt ALPHABET (j % strlen ALPHABET) :=
  C9_fill_bytes_in_bounds_and_distinct 36 (by decide)

/-- C1, evaluated where ten requests are granted and the eleventh is refused:
the allocation phase ends with `mb = 10`, the verification loop frees ten
blocks and then, at `mb = 10`, evaluates `buffer[10][0]` with `buffer[10]`
null; this read stops the program, which therefore has no exit status. -/
theorem C1_null_read_after_ten_blocks :
    Grants tenEnv.malloc 10 ∧
    (∃ s s2, allocLoop tenEnv.malloc (MB_MAX + 1) (init tenEnv) = .done s ∧
      s.mb = 10 ∧
      verifyLoop (MB_MAX + 1) { s with mb := 0, mem := tenEnv.tamper s.mem } = .segv s2 ∧
      s2.mb = 10 ∧
      s2.buffer.getD s2.mb NULL = NULL ∧
      load s2.mem (s2.buffer.getD s2.mb NULL) 0 = none ∧
      (frees s2.trace).length = 10) ∧
    (main tenEnv).map (fun r => r.status) = some none := by
  have hg : Grants tenEnv.malloc 10 := grants_ten
  refine ⟨hg, ⟨afterAlloc tenEnv 10, verifyState tenEnv 10 10,
    allocLoop_done tenEnv 10 hg (MB_MAX + 1) (by decide), rfl, ?_, rfl, ?_, ?_, ?_⟩, ?_⟩
  · rw [verifyStart_eq]
    have hv := verifyLoop_steps tenEnv 10 hg.1 hg.2.1 10 (le_refl _) (MB_MAX - 10 + 1)
    rw [show 10 + (MB_MAX - 10 + 1) = MB_MAX + 1 by decide] at hv
    rw [hv]
    exact verifyLoop_null tenEnv 10 _ (by decide)
  · show (table tenEnv.malloc 10).getD 10 NULL = NULL
    rw [table_getD _ _ _ (by decide)]
    simp
  · have hnull : (table tenEnv.malloc 10).getD 10 NULL = NULL := by
      rw [table_getD _ _ _ (by decide)]
      simp
    show load _ ((table tenEnv.malloc 10).getD 10 NULL) 0 = none
    rw [hnull]
    rfl
  · show (frees (allocTrace tenEnv.malloc 10 ++ refusal 10
      ++ verifyTrace tenEnv.malloc (memAtVerify tenEnv 10) 10)).length = 10
    rw [frees_append, frees_append, frees_allocTrace, frees_refusal, frees_verifyTrace]
    simp
  · rw [main_eq tenEnv 10 hg]
    rfl

/-- The progress lines handed to `printf`: when exactly the first `n ≤ 37`
requests are granted they are, in this order, `Allocated 25*k` for
`k = 1 .. n` and then `Freed 25*k` for `k = 1 .. n`; the last of each kind
reports `25 * n`; and when no block is altered these are all the lines handed
to `printf`. -/
theorem progress_lines_printed (env : Env) (n : Nat) (h : Grants env.malloc n) :
    ∃ r, main env = some r ∧
      (printfLines r.trace).filter (fun l => !l.isMismatch)
        = (List.range n).map (fun k => Line.allocated (25 * (k + 1)))
          ++ (List.range n).map (fun k => Line.freed (25 * (k + 1))) ∧
      (0 < n →
        ((printfLines r.trace).filter (fun l => l.isAllocated)).getLast?
            = some (Line.allocated (25 * n)) ∧
        ((printfLines r.trace).filter (fun l => l.isFreed)).getLast?
            = some (Line.freed (25 * n))) ∧
      (Unaltered env n →
        printfLines r.trace
          = (List.range n).map (fun k => Line.allocated (25 * (k + 1)))
            ++ (List.range n).map (fun k => Line.freed (25 * (k + 1)))) := by
  refine ⟨_, main_eq env n h, ?_, ?_, ?_⟩
  · show (printfLines (fullTrace env n)).filter _ = _
    unfold fullTrace
    rw [printfLines_append, printfLines_append, printfLines_refusal, List.append_nil, List.filter_append,
      progress_verifyTrace, printfLines_allocTrace]
    congr 1
    refine Eq.trans (List.filter_eq_self.2 ?_) rfl
    intro l hl
    obtain ⟨i, _, rfl⟩ := List.mem_map.1 hl
    rfl
  · intro hpos
    obtain ⟨m, rfl⟩ : ∃ m, n = m + 1 := ⟨n - 1, by omega⟩
    constructor
    · show ((printfLines (fullTrace env (m + 1))).filter _).getLast? = _
      unfold fullTrace
      rw [printfLines_append, printfLines_append, printfLines_refusal, List.append_nil, List.filter_append,
        allocated_allocTrace, allocated_verifyTrace, List.append_nil, List.range_succ,
        List.map_append]
      simp [MULTIPLIER]
    · show ((printfLines (fullTrace env (m + 1))).filter _).getLast? = _
      unfold fullTrace
      rw [printfLines_append, printfLines_append, printfLines_refusal, List.append_nil, List.filter_append,
        freed_allocTrace, freed_verifyTrace, List.nil_append, List.range_succ,
        List.map_append]
      simp [MULTIPLIER]
  · intro hu
    show printfLines (fullTrace env n) = _
    unfold fullTrace
    rw [printfLines_append, printfLines_append, printfLines_refusal, List.append_nil, printfLines_allocTrace,
      verifyTrace_clean _ _ _ (first_bytes_of_unaltered env n h hu)]
    rfl

/-- When `main` returns, all the text handed to `printf` reaches standard
output, whatever it is connected to. -/
theorem written_of_exit (sink : Sink) (r : Result) (c : Int) (h : r.status = some c) :
    written sink r = textOf (printfLines r.trace) := by
  simp [written, h]

/-- On a terminal all the text handed to `printf` reaches standard output,
however the run ends. -/
theorem written_terminal (r : Result) :
    written Sink.terminal r = textOf (printfLines r.trace) := by
  unfold written
  cases r.status <;> rfl

/-- Where the progress lines do reach standard output: when all 37 requests
are granted, or when standard output is a terminal, and no block is altered,
the text written is that of `Allocated 25*k`, `k = 1 .. n`, followed by
`Freed 25*k`, `k = 1 .. n`. -/
theorem progress_lines_written (env : Env) (n : Nat) (sink : Sink) (h : Grants env.malloc n)
    (hu : Unaltered env n) (hs : n = MB_MAX ∨ sink = Sink.terminal) :
    ∃ r, main env = some r ∧
      written sink r
        = textOf ((List.range n).map (fun k => Line.allocated (25 * (k + 1)))
            ++ (List.range n).map (fun k => Line.freed (25 * (k + 1)))) := by
  obtain ⟨r, h1, _, _, h4⟩ := progress_lines_printed env n h
  refine ⟨r, h1, ?_⟩
  rcases hs with hs | hs
  · have hst : r.status = some 0 := by
      have := main_status env n h
      rw [h1, if_pos hs] at this
      simpa using this
    rw [written_of_exit sink r 0 hst, h4 hu]
  · rw [hs, written_terminal, h4 hu]

set_option maxRecDepth 100000 in
/-- The twenty progress lines of a run with ten granted requests make 294
characters. -/
theorem text_ten_length :
    (textOf ((List.range 10).map (fun k => Line.allocated (25 * (k + 1)))
      ++ (List.range 10).map (fun k => Line.freed (25 * (k + 1))))).length = 294 := by
  rfl

/-- C2, evaluated where ten requests are granted, the eleventh is refused and
standard output is a pipe with a buffer of 4096 characters: `printf` is called
for ten `Allocated` and ten `Freed` lines, 294 characters in all, which are
still in the buffer when the read of `buffer[10][0]` through the null
`buffer[10]` stops the program; nothing reaches standard output, instead of
the twenty lines. -/
theorem C2_buffered_lines_lost :
    ∃ r, main tenEnv = some r ∧
      r.status = none ∧
      printfLines r.trace
        = (List.range 10).map (fun k => Line.allocated (25 * (k + 1)))
          ++ (List.range 10).map (fun k => Line.freed (25 * (k + 1))) ∧
      (textOf (printfLines r.trace)).length = 294 ∧
      written (Sink.pipe 4096) r = [] ∧
      written (Sink.pipe 4096) r
        ≠ textOf ((List.range 10).map (fun k => Line.allocated (25 * (k + 1)))
            ++ (List.range 10).map (fun k => Line.freed (25 * (k + 1)))) := by
  obtain ⟨r, h1, _, _, h4⟩ := progress_lines_printed tenEnv 10 grants_ten
  have hlines := h4 unaltered_tenEnv
  have hst : r.status = none := by
    have := main_status tenEnv 10 grants_ten
    rw [h1] at this
    simpa using this
  have hlen : (textOf (printfLines r.trace)).length = 294 := by
    rw [hlines]; exact text_ten_length
  have hw : written (Sink.pipe 4096) r = [] := by
    simp only [written, hst, hlen]
    rfl
  refine ⟨r, h1, hst, hlines, hlen, hw, ?_⟩
  rw [hw]
  intro hnil
  have hzero := congrArg List.length hnil
  rw [text_ten_length] at hzero
  exact absurd hzero (by decide)

/-- C3: for every allocator behaviour the program ends, and the arguments of
its `free` calls are exactly the handles its successful `malloc` calls
returned, in the order they were returned: one `free` for each granted block,
none on a null handle, every `free` after every `malloc`, and no handle freed
twice when the granted handles are pairwise distinct. -/
theorem C3_release_sequence (env : Env) :
    ∃ r, main env = some r ∧
      frees r.trace = (mallocs r.trace).filter (fun p => decide (p ≠ NULL)) ∧
      (∀ p, p ∈ frees r.trace → p ≠ NULL) ∧
      (∃ n, Grants env.malloc n ∧
        frees r.trace = (List.range n).map env.malloc ∧
        (frees r.trace).length = n ∧
        ((∀ i j, i < n → j < n → env.malloc i = env.malloc j → i = j) →
          (frees r.trace).Nodup)) ∧
      (∃ a v, r.trace = a ++ v ∧ frees a = [] ∧ mallocs v = []) := by
  obtain ⟨n, h⟩ := exists_grants env.malloc
  have hfree : frees (fullTrace env n) = (List.range n).map env.malloc := by
    unfold fullTrace
    rw [frees_append, frees_append, frees_allocTrace, frees_refusal, frees_verifyTrace]
    rfl
  have hmall : mallocs (fullTrace env n)
      = (List.range n).map env.malloc ++ (if n < MB_MAX then [NULL] else []) := by
    unfold fullTrace
    rw [mallocs_append, mallocs_append, mallocs_allocTrace, mallocs_refusal,
      mallocs_verifyTrace, List.append_nil]
  have hkeep : ((List.range n).map env.malloc).filter (fun p => decide (p ≠ NULL))
      = (List.range n).map env.malloc := by
    rw [List.filter_eq_self]
    intro p hp
    obtain ⟨i, hi, rfl⟩ := List.mem_map.1 hp
    simpa using h.2.1 i (List.mem_range.1 hi)
  refine ⟨_, main_eq env n h, ?_, ?_, ⟨n, h, hfree, ?_, ?_⟩, ?_⟩
  · show frees (fullTrace env n) = (mallocs (fullTrace env n)).filter _
    rw [hfree, hmall, List.filter_append, hkeep]
    split <;> simp
  · intro p hp
    have hp2 : p ∈ frees (fullTrace env n) := hp
    rw [hfree] at hp2
    obtain ⟨i, hi, rfl⟩ := List.mem_map.1 hp2
    exact h.2.1 i (List.mem_range.1 hi)
  · show (frees (fullTrace env n)).length = n
    rw [hfree]
    simp
  · intro hinj
    show (frees (fullTrace env n)).Nodup
    rw [hfree]
    refine List.Nodup.map_on ?_ (List.nodup_range n)
    intro i hi j hj hij
    exact hinj i j (List.mem_range.1 hi) (List.mem_range.1 hj) hij
  · refine ⟨allocTrace env.malloc n ++ refusal n, verifyTrace env.malloc (memAtVerify env n) n,
      rfl, ?_, mallocs_verifyTrace _ _ _⟩
    rw [frees_append, frees_allocTrace, frees_refusal]
    rfl

/-- C4: when all 37 requests are granted and no block is altered, the program
prints `Allocated 25*k` for `k = 1 .. 37` and then `Freed 25*k` for
`k = 1 .. 37` and nothing else, so 37 lines of each kind running from 25 to
925 and no mismatch line, and it returns 0; as `main` returns, exactly this
text reaches standard output, whatever it is connected to. -/
theorem C4_all_granted (env : Env) (hg : ∀ i, i < 37 → env.malloc i ≠ NULL)
    (hu : Unaltered env 37) :
    ∃ r, main env = some r ∧
      printfLines r.trace
        = (List.range 37).map (fun k => Line.allocated (25 * (k + 1)))
          ++ (List.range 37).map (fun k => Line.freed (25 * (k + 1))) ∧
      ((printfLines r.trace).filter (fun l => l.isAllocated)).length = 37 ∧
      ((printfLines r.trace).filter (fun l => l.isFreed)).length = 37 ∧
      ((printfLines r.trace).filter (fun l => l.isMismatch)).length = 0 ∧
      (printfLines r.trace).getLast? = some (Line.freed 925) ∧
      r.status = some 0 ∧
      (∀ sink, written sink r
        = textOf ((List.range 37).map (fun k => Line.allocated (25 * (k + 1)))
            ++ (List.range 37).map (fun k => Line.freed (25 * (k + 1))))) := by
  have h : Grants env.malloc MB_MAX := grants_all env.malloc hg
  have hout : printfLines (fullTrace env MB_MAX)
      = (List.range 37).map (fun k => Line.allocated (25 * (k + 1)))
        ++ (List.range 37).map (fun k => Line.freed (25 * (k + 1))) := by
    unfold fullTrace
    rw [printfLines_append, printfLines_append, printfLines_refusal, List.append_nil, printfLines_allocTrace,
      verifyTrace_clean _ _ _ (first_bytes_of_unaltered env MB_MAX h hu)]
    rfl
  have hwr : ∀ sink, written sink
      { trace := fullTrace env MB_MAX, status := if MB_MAX = MB_MAX then some 0 else none }
        = textOf ((List.range 37).map (fun k => Line.allocated (25 * (k + 1)))
            ++ (List.range 37).map (fun k => Line.freed (25 * (k + 1)))) := by
    intro sink
    rw [written_of_exit sink _ 0 rfl]
    show textOf (printfLines (fullTrace env MB_MAX)) = _
    rw [hout]
  refine ⟨_, main_eq env MB_MAX h, hout, ?_, ?_, ?_, ?_, rfl, hwr⟩
  · show ((printfLines (fullTrace env MB_MAX)).filter _).length = 37
    rw [hout]; decide
  · show ((printfLines (fullTrace env MB_MAX)).filter _).length = 37
    rw [hout]; decide
  · show ((printfLines (fullTrace env MB_MAX)).filter _).length = 0
    rw [hout]; decide
  · show (printfLines (fullTrace env MB_MAX)).getLast? = _
    rw [hout]; decide

/-- C4 for the allocator that lays 37 blocks out one after the other, with
memory left alone: the first line reads `Allocated 25 MB`, the last one
`Freed 925 MB`, and the exit status is 0. -/
theorem C4_witness :
    ∃ r, main allEnv = some r ∧
      (printfLines r.trace).length = 74 ∧
      ((printfLines r.trace).head?).map Line.render = some "Allocated 25 MB" ∧
      ((printfLines r.trace).getLast?).map Line.render = some "Freed 925 MB" ∧
      r.status = some 0 := by
  obtain ⟨r, h1, h2, _, _, _, h6, h7, _⟩ :=
    C4_all_granted allEnv grants_allBlocks.2.1 unaltered_allEnv
  refine ⟨r, h1, ?_, ?_, ?_, h7⟩
  · rw [h2]; decide
  · rw [h2]; decide
  · rw [h6]; decide

/-- C5: when `n` requests are granted, the `memset` calls of the run are, for
`i = 0 .. n-1` in order, `memset (buffer[i], ALPHABET[i mod 52], 25*1024*1024)`;
right after pass `i` each of the `25*1024*1024` bytes of block `i` holds
`ALPHABET[i mod 52]`; the verification prints a mismatch line for index `i`
exactly when `i < n` and the first byte of block `i` then differs from that
same `ALPHABET[i mod 52]`; hence no mismatch line is printed when no block is
altered. -/
theorem C5_fill_and_check (env : Env) (n : Nat) (h : Grants env.malloc n) :
    ∃ s r, allocLoop env.malloc (MB_MAX + 1) (init env) = .done s ∧ main env = some r ∧
      memsets r.trace
        = (List.range n).map (fun i => (env.malloc i, charAt ALPHABET (i % 52), 25 * 1024 * 1024)) ∧
      (∀ i k, i < n → k < 25 * 1024 * 1024 →
        (allocLoop env.malloc (i + 1) (init env)).state.mem (env.malloc i + k)
          = charAt ALPHABET (i % 52)) ∧
      (∀ i c, Line.mismatch i c ∈ printfLines r.trace ↔
        i < n ∧ c = charAt ALPHABET (i % 52) ∧
          env.tamper s.mem (env.malloc i) ≠ charAt ALPHABET (i % 52)) ∧
      (Unaltered env n → ∀ l, l ∈ printfLines r.trace → l.isMismatch = false) := by
  have hn : n ≤ MB_MAX := h.1
  refine ⟨_, _, allocLoop_done env n h (MB_MAX + 1) (by omega), main_eq env n h, ?_, ?_, ?_, ?_⟩
  · show memsets (fullTrace env n) = _
    unfold fullTrace
    rw [memsets_append, memsets_append, memsets_allocTrace, memsets_refusal,
      memsets_verifyTrace]
    simp only [List.append_nil]
    rfl
  · intro i k hi hk
    rw [allocLoop_more env n h (i + 1) (by omega)]
    exact fills_succ_block env.malloc env.mem0 i k hk
  · intro i c
    show Line.mismatch i c ∈ printfLines (fullTrace env n) ↔ _
    unfold fullTrace
    rw [printfLines_append, printfLines_append, printfLines_refusal, List.append_nil, List.mem_append,
      mismatch_mem_verifyTrace, printfLines_allocTrace]
    constructor
    · rintro (hmem | hright)
      · obtain ⟨j, _, hj⟩ := List.mem_map.1 hmem
        exact absurd hj (by simp)
      · exact hright
    · intro hright
      exact Or.inr hright
  · intro hu l hl
    exact clean_of_unaltered env n h hu l hl

/-- C5 where ten requests are granted and memory is left alone: block 3 is
filled with the letter `d` (code 100) and no mismatch line is printed. -/
theorem C5_witness :
    ∃ s r, allocLoop tenEnv.malloc (MB_MAX + 1) (init tenEnv) = .done s ∧
      main tenEnv = some r ∧
      (allocLoop tenEnv.malloc 4 (init tenEnv)).state.mem (tenEnv.malloc 3 + 26214399) = 100 ∧
      (∀ l, l ∈ printfLines r.trace → l.isMismatch = false) := by
  obtain ⟨s, r, h1, h2, _, h4, _, h6⟩ := C5_fill_and_check tenEnv 10 grants_ten
  exact ⟨s, r, h1, h2, h4 3 26214399 (by decide) (by decide), h6 unaltered_tenEnv⟩

/-- What the program does about mismatches, for every run: with `n` granted
requests the mismatch line for index `i` is printed exactly when `i < n` and
the first byte of block `i` is not its fill byte; whatever memory holds, all
`n` blocks are freed in order and all `n` `Freed` lines are printed; and the
end of the run does not depend on memory: exit status 0 when `n = 37`, the
null read at index `n` when `n < 37`. -/
theorem mismatch_reported_and_ignored (env : Env) (n : Nat) (h : Grants env.malloc n) :
    ∃ s r, allocLoop env.malloc (MB_MAX + 1) (init env) = .done s ∧ main env = some r ∧
      (∀ i c, Line.mismatch i c ∈ printfLines r.trace ↔
        i < n ∧ c = charAt ALPHABET (i % strlen ALPHABET) ∧
          env.tamper s.mem (env.malloc i) ≠ charAt ALPHABET (i % strlen ALPHABET)) ∧
      frees r.trace = (List.range n).map env.malloc ∧
      (printfLines r.trace).filter (fun l => l.isFreed)
        = (List.range n).map (fun k => Line.freed (MULTIPLIER * (k + 1))) ∧
      r.status = (if n = MB_MAX then some 0 else none) := by
  have hn : n ≤ MB_MAX := h.1
  refine ⟨_, _, allocLoop_done env n h (MB_MAX + 1) (by omega), main_eq env n h, ?_, ?_, ?_, rfl⟩
  · intro i c
    show Line.mismatch i c ∈ printfLines (fullTrace env n) ↔ _
    unfold fullTrace
    rw [printfLines_append, printfLines_append, printfLines_refusal, List.append_nil, List.mem_append,
      mismatch_mem_verifyTrace, printfLines_allocTrace]
    constructor
    · rintro (hmem | hright)
      · obtain ⟨j, _, hj⟩ := List.mem_map.1 hmem
        exact absurd hj (by simp)
      · exact hright
    · intro hright
      exact Or.inr hright
  · show frees (fullTrace env n) = _
    unfold fullTrace
    rw [frees_append, frees_append, frees_allocTrace, frees_refusal, frees_verifyTrace]
    rfl
  · show (printfLines (fullTrace env n)).filter _ = _
    unfold fullTrace
    rw [printfLines_append, printfLines_append, printfLines_refusal, List.append_nil, List.filter_append,
      freed_allocTrace, freed_verifyTrace]
    rfl

/-- C7, evaluated where ten requests are granted and the first byte of block 3
is overwritten before the verification: the mismatch line for index 3 is
printed, block 3 and all ten blocks are freed and their `Freed` lines are
printed, and then the read of `buffer[10][0]` through the null `buffer[10]`
stops the program, so there is no exit status 0. -/
theorem C7_mismatch_then_null_read :
    ∃ r, main spoiltEnv = some r ∧
      printfLines r.trace
        = (List.range 10).map (fun k => Line.allocated (25 * (k + 1)))
          ++ [Line.freed 25, Line.freed 50, Line.freed 75,
              Line.mismatch 3 (charAt ALPHABET (3 % 52)), Line.freed 100,
              Line.freed 125, Line.freed 150, Line.freed 175, Line.freed 200,
              Line.freed 225, Line.freed 250] ∧
      frees r.trace = (List.range 10).map tenBlocks ∧
      r.status = none ∧
      r.status ≠ some 0 := by
  have hg : Grants spoiltEnv.malloc 10 := grants_ten
  refine ⟨_, main_eq spoiltEnv 10 hg, ?_, ?_, rfl, by decide⟩
  · show printfLines (fullTrace spoiltEnv 10) = _
    unfold fullTrace
    rw [printfLines_append, printfLines_append, printfLines_refusal, List.append_nil, printfLines_allocTrace]
    rfl
  · show frees (fullTrace spoiltEnv 10) = _
    unfold fullTrace
    rw [frees_append, frees_append, frees_allocTrace, frees_refusal, frees_verifyTrace]
    rfl

/-- C10: when `n` requests are granted to blocks that do not overlap, writing
any value to byte `k` of block `i`, `1 ≤ k < 25*1024*1024`, between the two
loops changes nothing in the run: same calls, same lines, same end; so an
otherwise unaltered run still prints no mismatch line.  In general two runs
that differ only in what the outside world does to memory, and in which the
first byte of every block is the same when the verification starts, are the
same run. -/
theorem C10_only_first_byte_read (env : Env) (n i k v : Nat) (h : Grants env.malloc n)
    (hd : DisjointBlocks env.malloc n) (hi : i < n) (hk1 : 1 ≤ k)
    (hk : k < 25 * 1024 * 1024) :
    main { env with tamper := fun m => poke (env.tamper m) (env.malloc i + k) v } = main env ∧
    (Unaltered env n →
      ∃ r, main { env with tamper := fun m => poke (env.tamper m) (env.malloc i + k) v } = some r ∧
        ∀ l, l ∈ printfLines r.trace → l.isMismatch = false) ∧
    (∀ t : Mem → Mem, (∀ m j, j < n → t m (env.malloc j) = env.tamper m (env.malloc j)) →
      main { env with tamper := t } = main env) := by
  have hgen : ∀ t : Mem → Mem,
      (∀ m j, j < n → t m (env.malloc j) = env.tamper m (env.malloc j)) →
      main { env with tamper := t } = main env := by
    intro t ht
    have h2 : Grants ({ env with tamper := t } : Env).malloc n := h
    rw [main_eq env n h, main_eq _ n h2]
    have : fullTrace { env with tamper := t } n = fullTrace env n := by
      unfold fullTrace
      congr 1
      exact verifyTrace_congr env.malloc _ _ n (fun j hj => ht _ j hj)
    rw [this]
  have hpoke : main { env with tamper := fun m => poke (env.tamper m) (env.malloc i + k) v }
      = main env := by
    apply hgen
    intro m j hj
    have hne : env.malloc j ≠ env.malloc i + k := by
      have hk2 : k < MALLOC_MB := hk
      by_cases hij : i = j
      · subst hij
        unfold Ptr at *
        omega
      · rcases hd i j hi hj hij with hcase | hcase <;> unfold Ptr at * <;> omega
    simp [poke, hne]
  refine ⟨hpoke, ?_, hgen⟩
  intro hu
  exact ⟨_, by rw [hpoke]; exact main_eq env n h, fun l hl => clean_of_unaltered env n h hu l hl⟩

/-- C10 where ten requests are granted and memory is otherwise left alone:
overwriting the second byte of block 3 with 0 gives the same run, without a
mismatch line. -/
theorem C10_witness :
    main { tenEnv with tamper := fun m => poke (tenEnv.tamper m) (tenEnv.malloc 3 + 1) 0 }
      = main tenEnv ∧
    ∃ r, main { tenEnv with tamper := fun m => poke (tenEnv.tamper m) (tenEnv.malloc 3 + 1) 0 }
        = some r ∧
      ∀ l, l ∈ printfLines r.trace → l.isMismatch = false :=
  have w := C10_only_first_byte_read tenEnv 10 3 1 0 grants_ten disjoint_ten
    (by decide) (by decide) (by decide)
  ⟨w.1, w.2.1 unaltered_tenEnv⟩

end Memalloc
